import Mathlib

/-!
Verification of SlackPirate.py against its natural-language specification.

The Python source is shallowly embedded: each relevant function is translated
into an executable Lean definition over lists and strings, and the spec's
claims are settled as theorems about those definitions.

Modelling conventions:
* a text file's content is a `String`; `readLines` models Python
  `file.readlines()` (split after each newline, keeping the newline);
* Python `set(...)` of lines is modelled by `List.dedup` (a deterministic
  choice of order for the unordered set);
* Python `sorted(lines, key=str.lower)` is modelled by the stable
  `List.insertionSort` under the pulled-back order on lowercased
  character data (Python compares strings by code points, as Lean does on
  `List Char`);
* Python `str.lower` is modelled per character by `Char.toLower`.
-/

namespace SlackPirate

/-- Lowercase key used by `file_cleanup`'s sort: the character data of the
line, lowercased character by character (models `str.lower` as sort key). -/
def lowerKey (s : String) : List Char := s.data.map Char.toLower

/-- Comparison used by `sorted(lines, key=str.lower)` in `file_cleanup`:
lexicographic code-point order of the lowercased character data. -/
def cleanupLe (a b : String) : Prop := lowerKey a ≤ lowerKey b

instance : DecidableRel cleanupLe := fun a b =>
  inferInstanceAs (Decidable (lowerKey a ≤ lowerKey b))

instance : IsTotal String cleanupLe := ⟨fun a b => le_total (lowerKey a) (lowerKey b)⟩

instance : IsTrans String cleanupLe := ⟨fun _ _ _ h1 h2 => le_trans h1 h2⟩

/-- Substring test on character lists, modelling Python's `in` on strings. -/
def hasSubstr (pat : List Char) : List Char → Bool
  | [] => pat.isEmpty
  | c :: rest => pat.isPrefixOf (c :: rest) || hasSubstr pat rest

/-- The fixed noise marker removed by `file_cleanup`. -/
def noiseMarker : String := "com/archives/"

/-- Test for the noise marker, modelling `"com/archives/" in line`. -/
def containsArchives (line : String) : Bool := hasSubstr noiseMarker.data line.data

/-- Core of `file_cleanup` (SlackPirate.py lines 878-883) at the level of the
list of lines read from the store file: `lines = set(file.readlines())`, then
`for line in sorted(lines, key=str.lower): if "com/archives/" not in line:
file.write(line)`. -/
def file_cleanup_lines (lines : List String) : List String :=
  (List.insertionSort cleanupLe lines.dedup).filter (fun l => !containsArchives l)

/-- Python `readlines` helper: split character data after every newline,
keeping the newline characters; a final fragment without a newline is
returned as a last line. -/
def splitLinesAux : List Char → List Char → List (List Char)
  | acc, [] => if acc.isEmpty then [] else [acc]
  | acc, c :: rest =>
    if c = '\n' then (acc ++ ['\n']) :: splitLinesAux [] rest
    else splitLinesAux (acc ++ [c]) rest

/-- Models Python `file.readlines()` on a file whose content is `c`. -/
def readLines (c : String) : List String :=
  (splitLinesAux [] c.data).map (fun l => ⟨l⟩)

/-- Concatenation of lines back into file content, modelling the sequence of
`file.write(line)` calls in `file_cleanup`. -/
def joinLines (ls : List String) : String := ⟨(ls.map String.data).flatten⟩

/-- Whole-file semantics of `file_cleanup` on an existing store file:
read all lines, deduplicate, sort case-insensitively, drop noise lines,
write the survivors back. -/
def fileCleanupContent (c : String) : String :=
  joinLines (file_cleanup_lines (readLines c))

/-- A line in proper form: it ends with a newline and contains no other
newline. Every line that `file_cleanup`'s appending producers write is of
this form, because every write is `item + "\n"`. -/
def properLine : List Char → Bool
  | [] => false
  | [c] => c = '\n'
  | c :: c2 :: l => (c ≠ '\n') && properLine (c2 :: l)

/-- File content that is empty or ends with a newline. Every store file this
program writes is of this form. -/
def newlineTerminated (c : String) : Bool := c.data.isEmpty || c.data.getLast? == some '\n'

/-- Filesystem view of `file_cleanup` (SlackPirate.py lines 869-883): a
filesystem maps paths to optional file contents; if the path is not a file
the function returns at once, otherwise it rewrites that one file. -/
def file_cleanup_fs (fs : String → Option String) (path : String) : String → Option String :=
  match fs path with
  | none => fs
  | some c => fun p => if p = path then some (fileCleanupContent c) else fs p

/-! Helper lemmas about `file_cleanup_lines`. -/

lemma file_cleanup_lines_nodup (lines : List String) : (file_cleanup_lines lines).Nodup :=
  List.Nodup.filter _ (((List.perm_insertionSort cleanupLe lines.dedup)).nodup_iff.mpr
    (List.nodup_dedup lines))

lemma file_cleanup_lines_sorted (lines : List String) :
    List.Sorted cleanupLe (file_cleanup_lines lines) :=
  List.Pairwise.filter _ (List.sorted_insertionSort cleanupLe lines.dedup)

lemma file_cleanup_lines_noiseFree (lines : List String) :
    ∀ l ∈ file_cleanup_lines lines, containsArchives l = false := by
  intro l hl
  have := List.of_mem_filter hl
  simpa using this

lemma mem_file_cleanup_lines {lines : List String} {l : String} (h : l ∈ file_cleanup_lines lines)
    : l ∈ lines := by
  have hm := List.mem_of_mem_filter h
  rw [List.mem_insertionSort] at hm
  exact List.mem_dedup.mp hm

lemma file_cleanup_lines_complete (lines : List String) :
    ∀ l ∈ lines, containsArchives l = false → l ∈ file_cleanup_lines lines := by
  intro l hl hnoise
  refine List.mem_filter.mpr ⟨?_, by simp [hnoise]⟩
  rw [List.mem_insertionSort]
  exact List.mem_dedup.mpr hl

lemma file_cleanup_lines_idem (lines : List String) :
    file_cleanup_lines (file_cleanup_lines lines) = file_cleanup_lines lines := by
  have hnd := file_cleanup_lines_nodup lines
  have hsorted := file_cleanup_lines_sorted lines
  have hfilter : (file_cleanup_lines lines).filter (fun l => !containsArchives l) =
      file_cleanup_lines lines := by
    rw [List.filter_eq_self]
    intro a ha
    simp [file_cleanup_lines_noiseFree lines a ha]
  calc file_cleanup_lines (file_cleanup_lines lines)
      = (List.insertionSort cleanupLe (file_cleanup_lines lines).dedup).filter
          (fun l => !containsArchives l) := rfl
    _ = (List.insertionSort cleanupLe (file_cleanup_lines lines)).filter
          (fun l => !containsArchives l) := by rw [List.dedup_eq_self.mpr hnd]
    _ = (file_cleanup_lines lines).filter (fun l => !containsArchives l) := by
          rw [List.Sorted.insertionSort_eq hsorted]
    _ = file_cleanup_lines lines := hfilter

/-! Theorems for claim C1. -/

/-- C1 (counterexample): the claim says duplicates that differ only in letter
case collapse to one stored line; but `file_cleanup` deduplicates with a
case-sensitive `set`, so `"Secret123\n"` and `"secret123\n"` both survive and
the distinct case-insensitive value appears twice, not exactly once. -/
theorem file_cleanup_caseInsensitive_dedup_cex :
    ¬ ((file_cleanup_lines
        ["Secret123\n", "secret123\n", "unrelated line com/archives/T000/p000\n"]).countP
        (fun l => lowerKey l == lowerKey "secret123\n") = 1) := by decide

/-- C1 (amended): after `file_cleanup`, each distinct exact (case-sensitive)
line is stored exactly once (lines differing only in case each survive), the
surviving lines are sorted case-insensitively, no surviving line contains
`"com/archives/"`, and every noise-free input line survives. -/
theorem file_cleanup_store_invariant (lines : List String) :
    (file_cleanup_lines lines).Nodup ∧
    List.Sorted cleanupLe (file_cleanup_lines lines) ∧
    (∀ l ∈ file_cleanup_lines lines, containsArchives l = false) ∧
    (∀ l ∈ lines, containsArchives l = false → l ∈ file_cleanup_lines lines) :=
  ⟨file_cleanup_lines_nodup lines, file_cleanup_lines_sorted lines,
   file_cleanup_lines_noiseFree lines, file_cleanup_lines_complete lines⟩

/-- C1 (witness): the invariant evaluated on a concrete store. -/
theorem file_cleanup_store_invariant_witness :
    (file_cleanup_lines ["b\n", "a\n", "x com/archives/C123/p1\n"]).Nodup ∧
    "a\n" ∈ file_cleanup_lines ["b\n", "a\n", "x com/archives/C123/p1\n"] :=
  ⟨(file_cleanup_store_invariant ["b\n", "a\n", "x com/archives/C123/p1\n"]).1,
   (file_cleanup_store_invariant ["b\n", "a\n", "x com/archives/C123/p1\n"]).2.2.2
     "a\n" (by decide) (by decide)⟩

/-! Helper lemmas about splitting and joining lines, for claim C8. -/

lemma properLine_append_newline : ∀ (acc : List Char), (∀ a ∈ acc, a ≠ '\n') →
    properLine (acc ++ ['\n']) = true
  | [], _ => by simp [properLine]
  | a :: acc, h => by
    cases acc with
    | nil => simp [properLine, h a (by simp)]
    | cons b acc2 =>
      have htail := properLine_append_newline (b :: acc2) (fun x hx => h x (by simp [hx]))
      simpa [properLine, h a (by simp)] using htail

lemma splitLinesAux_proper : ∀ (l : List Char), properLine l = true →
    ∀ (acc rest : List Char), splitLinesAux acc (l ++ rest) = (acc ++ l) :: splitLinesAux [] rest
  | [], hl => by simp [properLine] at hl
  | [c], hl => by
    have hc : c = '\n' := by simpa [properLine] using hl
    subst hc
    intro acc rest
    simp [splitLinesAux]
  | c :: c2 :: l2, hl => by
    have hc : ¬(c = '\n') ∧ properLine (c2 :: l2) = true := by
      simpa [properLine] using hl
    intro acc rest
    have ih := splitLinesAux_proper (c2 :: l2) hc.2 (acc ++ [c]) rest
    simp only [List.cons_append, splitLinesAux, if_neg hc.1] at ih ⊢
    rw [ih]
    simp [List.append_assoc]

lemma splitLinesAux_flatten : ∀ (ls : List (List Char)), (∀ l ∈ ls, properLine l = true) →
    splitLinesAux [] ls.flatten = ls
  | [], _ => by simp [splitLinesAux]
  | l :: ls, h => by
    rw [List.flatten_cons, splitLinesAux_proper l (h l (by simp)) [] ls.flatten]
    rw [splitLinesAux_flatten ls (fun x hx => h x (by simp [hx]))]
    simp

lemma splitLinesAux_all_proper : ∀ (c : List Char) (acc : List Char),
    (∀ a ∈ acc, a ≠ '\n') → c.getLast? = some '\n' →
    ∀ l ∈ splitLinesAux acc c, properLine l = true
  | [], _, _, hlast => by simp at hlast
  | ch :: rest, acc, hacc, hlast => by
    intro l hl
    by_cases hch : ch = '\n'
    · subst hch
      rw [splitLinesAux, if_pos rfl] at hl
      rcases List.mem_cons.mp hl with h1 | h1
      · subst h1
        exact properLine_append_newline acc hacc
      · cases rest with
        | nil => simp [splitLinesAux] at h1
        | cons r rs =>
          have hlast2 : (r :: rs).getLast? = some '\n' := by
            rwa [List.getLast?_cons_cons] at hlast
          exact splitLinesAux_all_proper (r :: rs) [] (by simp) hlast2 l h1
    · rw [splitLinesAux, if_neg hch] at hl
      cases rest with
      | nil =>
        exfalso
        have : ch = '\n' := by simpa using hlast
        exact hch this
      | cons r rs =>
        have hlast2 : (r :: rs).getLast? = some '\n' := by
          rwa [List.getLast?_cons_cons] at hlast
        refine splitLinesAux_all_proper (r :: rs) (acc ++ [ch]) ?_ hlast2 l hl
        intro a ha
        rcases List.mem_append.mp ha with h1 | h1
        · exact hacc a h1
        · simp at h1
          simpa [h1] using hch

lemma readLines_proper {c : String} (h : c.data.getLast? = some '\n') :
    ∀ l ∈ readLines c, properLine l.data = true := by
  intro l hl
  rcases List.mem_map.mp hl with ⟨l0, hl0, rfl⟩
  exact splitLinesAux_all_proper c.data [] (by simp) h l0 hl0

lemma readLines_joinLines (ls : List String) (h : ∀ l ∈ ls, properLine l.data = true) :
    readLines (joinLines ls) = ls := by
  unfold readLines joinLines
  rw [show (⟨(ls.map String.data).flatten⟩ : String).data = (ls.map String.data).flatten from rfl]
  rw [splitLinesAux_flatten (ls.map String.data)
    (by intro l0 hl0; rcases List.mem_map.mp hl0 with ⟨s, hs, rfl⟩; exact h s hs)]
  rw [List.map_map]
  have hid : ((fun l => (⟨l⟩ : String)) ∘ String.data) = id := funext fun s => rfl
  rw [hid, List.map_id]

/-! Theorems for claim C8. -/

/-- C8 (counterexample): `file_cleanup` is not idempotent on every input
file. On a file whose last line has no trailing newline, the rewrite glues
that line onto its successor in sorted order, and a second run sorts the
glued line differently: content `"b\nba\nb"` becomes `"bb\nba\n"` after one
run and `"ba\nbb\n"` after two. -/
theorem fileCleanup_idempotent_cex :
    ¬ (fileCleanupContent (fileCleanupContent "b\nba\nb") = fileCleanupContent "b\nba\nb") := by
  decide

/-- C8 (amended): on every file in which each line ends with a newline — in
particular every store this program writes, since every append writes
`item + "\n"` — running `file_cleanup` twice produces exactly the file
content of running it once. -/
theorem fileCleanup_idempotent_of_newlineTerminated (c : String)
    (h : newlineTerminated c = true) :
    fileCleanupContent (fileCleanupContent c) = fileCleanupContent c := by
  have h2 : c.data = [] ∨ c.data.getLast? = some '\n' := by
    simpa [newlineTerminated, List.isEmpty_iff] using h
  rcases h2 with h0 | h0
  · have hr : readLines c = [] := by
      unfold readLines
      rw [h0]
      simp [splitLinesAux]
    unfold fileCleanupContent
    rw [hr]
    decide
  · have hproper : ∀ l ∈ file_cleanup_lines (readLines c), properLine l.data = true :=
      fun l hl => readLines_proper h0 l (mem_file_cleanup_lines hl)
    show fileCleanupContent (joinLines (file_cleanup_lines (readLines c))) =
      fileCleanupContent c
    unfold fileCleanupContent
    rw [readLines_joinLines _ hproper, file_cleanup_lines_idem]

/-- C8 (witness): idempotence evaluated on a concrete newline-terminated
store file. -/
theorem fileCleanup_idempotent_witness :
    newlineTerminated "b\nBa\na com/archives/C1/p2\nb\n" = true ∧
    fileCleanupContent (fileCleanupContent "b\nBa\na com/archives/C1/p2\nb\n") =
      fileCleanupContent "b\nBa\na com/archives/C1/p2\nb\n" :=
  ⟨by decide, fileCleanup_idempotent_of_newlineTerminated _ (by decide)⟩

/-! Theorems for claim C10. -/

/-- C10: when the store file does not exist, `file_cleanup` returns without
touching the filesystem: the `is_file` guard fails and the function returns
before opening anything, so no file is created, modified, or deleted. -/
theorem file_cleanup_missing_file_noop (fs : String → Option String) (path : String)
    (h : fs path = none) : file_cleanup_fs fs path = fs := by
  unfold file_cleanup_fs
  rw [h]

/-- C10 (witness): on the empty filesystem, cleaning up `S3.txt` is a no-op. -/
theorem file_cleanup_missing_file_noop_witness :
    file_cleanup_fs (fun _ => none) "S3.txt" = (fun _ => (none : Option String)) :=
  file_cleanup_missing_file_noop (fun _ => none) "S3.txt" rfl

/-! Model of the rate-limit check and the paginated query loop
(claims C2 and C3). -/

/-- Decoded JSON body of a Slack search response, as far as
`sleep_if_rate_limited` and the pagination loops inspect it: the success
flag `ok`, the `error` code, and `messages.pagination.page_count`. -/
structure SlackResponse where
  ok : Bool
  error : String
  pageCount : Nat
deriving DecidableEq

/-- Model of `sleep_if_rate_limited` (SlackPirate.py lines 144-160). The
first component is the returned bool; the second lists the sleep durations
performed during the call, in seconds. The code returns `False` without
sleeping when `ok is not False or error != 'ratelimited'`, and otherwise
sleeps once for 60 seconds and returns `True`. -/
def sleep_if_rate_limited (r : SlackResponse) : Bool × List Nat :=
  if ¬(r.ok = false) ∨ ¬(r.error = "ratelimited") then (false, [])
  else (true, [60])

/-- Discovery loop of one query (`while True: r = fetch(); if not
sleep_if_rate_limited(r): break`), run against a provider giving the
response to the i-th repeated attempt of the same request. `fuel` bounds the
iterations modelled; the result is `none` only if every modelled attempt was
rate-limited. Returns (number of fetches, sleeps performed, final
response). -/
def runDiscovery (provider : Nat → SlackResponse) : Nat → Nat → Option (Nat × List Nat × SlackResponse)
  | 0, _ => none
  | fuel + 1, i =>
    let s := sleep_if_rate_limited (provider i)
    if s.1 then
      match runDiscovery provider fuel (i + 1) with
      | some (f, sl, r2) => some (f + 1, s.2 ++ sl, r2)
      | none => none
    else some (1, s.2, provider i)

/-- Page numbers fetched by the drain loop of `find_s3` (SlackPirate.py
lines 384-405): `page = 1; while page <= page_count: ...fetch page...;
page += 1`. The loop never retries a page and always advances. -/
def drainLoop (pageCount : Nat) (page : Nat) : List Nat :=
  if page ≤ pageCount then page :: drainLoop pageCount (page + 1) else []
termination_by pageCount + 1 - page

/-- One query of `find_s3` (SlackPirate.py lines 364-405): the rate-limited
discovery fetch loop records `page_count`, then the drain loop fetches the
pages sequentially. The provider maps (attempt, page) to a response, where
page `none` is the discovery request. Returns (discovery fetch count,
sleeps, drained page numbers). -/
def runQueryS3 (provider : Nat → Option Nat → SlackResponse) (fuel : Nat) :
    Option (Nat × List Nat × List Nat) :=
  match runDiscovery (fun i => provider i none) fuel 0 with
  | none => none
  | some (f, sl, r) => some (f, sl, drainLoop r.pageCount 1)

lemma sleep_if_rate_limited_fst (r : SlackResponse) :
    (sleep_if_rate_limited r).1 = true ↔ r.ok = false ∧ r.error = "ratelimited" := by
  unfold sleep_if_rate_limited
  split
  · next h => simpa using (by tauto : ¬(r.ok = false ∧ r.error = "ratelimited"))
  · next h => simpa using (by tauto : r.ok = false ∧ r.error = "ratelimited")

lemma sleep_if_rate_limited_snd (r : SlackResponse) :
    (sleep_if_rate_limited r).2 = if (sleep_if_rate_limited r).1 then [60] else [] := by
  unfold sleep_if_rate_limited
  split <;> simp

lemma runDiscovery_shift (provider : Nat → SlackResponse) :
    ∀ (fuel k j : Nat), k < fuel →
    (∀ i < k, (provider (j + i)).ok = false ∧ (provider (j + i)).error = "ratelimited") →
    ¬((provider (j + k)).ok = false ∧ (provider (j + k)).error = "ratelimited") →
    runDiscovery provider fuel j = some (k + 1, List.replicate k 60, provider (j + k))
  | 0, k, j, hk, _, _ => absurd hk (by omega)
  | fuel + 1, 0, j, _, _, hs => by
    have h1 : (sleep_if_rate_limited (provider j)).1 = false := by
      rw [← Bool.not_eq_true, sleep_if_rate_limited_fst]
      simpa using hs
    have h2 : (sleep_if_rate_limited (provider j)).2 = [] := by
      rw [sleep_if_rate_limited_snd, h1]
      rfl
    simp [runDiscovery, h1, h2]
  | fuel + 1, k + 1, j, hk, hrl, hs => by
    have h0 : (sleep_if_rate_limited (provider j)).1 = true := by
      rw [sleep_if_rate_limited_fst]
      simpa using hrl 0 (by omega)
    have h2 : (sleep_if_rate_limited (provider j)).2 = [60] := by
      rw [sleep_if_rate_limited_snd, h0]
      rfl
    have ih := runDiscovery_shift provider fuel k (j + 1) (by omega)
      (fun i hi => by have := hrl (i + 1) (by omega); simpa [Nat.add_assoc, Nat.add_comm 1 i] using this)
      (by have : j + 1 + k = j + (k + 1) := by omega
          rw [this]
          exact hs)
    have hjk : j + 1 + k = j + (k + 1) := by omega
    rw [hjk] at ih
    simp [runDiscovery, h0, h2, ih, List.replicate_succ]

lemma drainLoop_eq_range (pageCount : Nat) : ∀ (m page : Nat), pageCount + 1 - page = m →
    drainLoop pageCount page = List.range' page m
  | 0, page, hm => by
    have h : ¬(page ≤ pageCount) := by omega
    unfold drainLoop
    simp [h]
  | m + 1, page, hm => by
    have h : page ≤ pageCount := by omega
    unfold drainLoop
    rw [if_pos h, drainLoop_eq_range pageCount m (page + 1) (by omega)]
    rfl

/-! Theorems for claim C3. -/

/-- C3: `sleep_if_rate_limited` returns true if and only if the response has
`ok = False` together with error code `'ratelimited'`; in that case it sleeps
exactly one 60-second cooldown, otherwise it performs no sleep; it never
sleeps more than once per call; and a discovery loop receiving the
rate-limit signal on the first k attempts and a non-rate-limited response on
attempt k performs exactly k cooldowns, k+1 fetches, and returns that one
final response. -/
theorem sleep_if_rate_limited_spec :
    (∀ r : SlackResponse,
      ((sleep_if_rate_limited r).1 = true ↔ r.ok = false ∧ r.error = "ratelimited") ∧
      (sleep_if_rate_limited r).2 = (if (sleep_if_rate_limited r).1 then [60] else []) ∧
      (sleep_if_rate_limited r).2.length ≤ 1) ∧
    (∀ (provider : Nat → SlackResponse) (k fuel : Nat), k < fuel →
      (∀ i < k, (provider i).ok = false ∧ (provider i).error = "ratelimited") →
      ¬((provider k).ok = false ∧ (provider k).error = "ratelimited") →
      runDiscovery provider fuel 0 = some (k + 1, List.replicate k 60, provider k)) := by
  constructor
  · intro r
    refine ⟨sleep_if_rate_limited_fst r, sleep_if_rate_limited_snd r, ?_⟩
    rw [sleep_if_rate_limited_snd]
    split <;> simp
  · intro provider k fuel hk hrl hs
    have := runDiscovery_shift provider fuel k 0 hk (by simpa using hrl) (by simpa using hs)
    simpa using this

/-- C3 (witness): a provider that is rate-limited twice and then succeeds
induces exactly two 60-second cooldowns, three fetches, and one final
successful response. -/
theorem sleep_if_rate_limited_spec_witness :
    runDiscovery
      (fun i => if i < 2 then ⟨false, "ratelimited", 0⟩ else ⟨true, "", 3⟩) 5 0 =
      some (3, [60, 60], ⟨true, "", 3⟩) := by
  have h := sleep_if_rate_limited_spec.2
    (fun i => if i < 2 then ⟨false, "ratelimited", 0⟩ else ⟨true, "", 3⟩)
    2 5 (by omega) (by decide) (by decide)
  simpa using h

/-! Theorems for claim C2. -/

/-- C2: when a query's (non-rate-limited) discovery call reports
`page_count = N`, the runner performs exactly one discovery fetch with no
cooldown plus exactly N drain fetches, whose page numbers are exactly
1, 2, ..., N — strictly sequential, monotonically increasing, each fetched
page processed exactly once — and N = 0 yields zero drain fetches. -/
theorem paginated_runner_fetches (provider : Nat → Option Nat → SlackResponse)
    (fuel N : Nat) (hfuel : 0 < fuel)
    (hok : ¬((provider 0 none).ok = false ∧ (provider 0 none).error = "ratelimited"))
    (hN : (provider 0 none).pageCount = N) :
    runQueryS3 provider fuel = some (1, [], drainLoop N 1) ∧
    drainLoop N 1 = List.range' 1 N ∧
    (drainLoop N 1).length = N ∧
    List.Chain' (fun a b => a + 1 = b) (drainLoop N 1) ∧
    (drainLoop N 1).Nodup ∧
    (N = 0 → drainLoop N 1 = []) := by
  have hrange : drainLoop N 1 = List.range' 1 N :=
    drainLoop_eq_range N N 1 (by omega)
  have hdisc := runDiscovery_shift (fun i => provider i none) fuel 0 0 hfuel
    (by omega) (by simpa using hok)
  refine ⟨?_, hrange, ?_, ?_, ?_, ?_⟩
  · unfold runQueryS3
    rw [show (0 : Nat) + 0 = 0 from rfl] at hdisc
    rw [hdisc]
    simp [hN]
  · rw [hrange]
    simp
  · rw [hrange]
    rcases N with _ | n
    · simp
    · rw [List.range'_succ]
      exact List.Chain.imp (fun a b e => e.symm) (List.chain_succ_range' 1 n 1)
  · rw [hrange]
    exact List.nodup_range' 1 N
  · intro h0
    rw [hrange, h0]
    rfl

/-! Model of the interesting-files dedup and download task creation
(claim C4), from download_interesting_files (SlackPirate.py lines 799-837). -/

/-- File descriptor fields consumed from a `search.files` match. -/
structure SlackFile where
  id : String
  name : String
  url_private : String
deriving DecidableEq

/-- Characters the code strips from filenames: the regex
`[/:*?"<>|\\\]` in SlackPirate.py line 802. -/
def badChars : List Char := ['/', ':', '*', '?', '"', '<', '>', '|', '\\']

/-- Replacement of every bad character with an underscore, modelling
`bad_chars_re.sub('_', file_name)`. -/
def sanitizeFilename (s : String) : String :=
  ⟨s.data.map (fun c => if c ∈ badChars then '_' else c)⟩

/-- A download task as constructed at SlackPirate.py lines 833-836:
the private URL to fetch and the output filename `{id}-{name}`,
sanitized. -/
def mkDownloadTask (f : SlackFile) : String × String :=
  (f.url_private, sanitizeFilename (f.id ++ "-" ++ f.name))

/-- The per-page dedup loop (SlackPirate.py lines 829-836): for each page,
`new_files` is the page filtered against the ids seen on earlier pages;
their ids are then added to the seen set before the next page. Note that the
filter is computed against the seen set as of the start of the page. -/
def collectNewFilesAux : List String → List (List SlackFile) → List SlackFile
  | _, [] => []
  | seen, page :: rest =>
    let newFiles := page.filter (fun f => !(seen.contains f.id))
    newFiles ++ collectNewFilesAux (seen ++ newFiles.map SlackFile.id) rest

/-- Descriptors surviving dedup, over all result pages (across all queries)
in order. -/
def collectNewFiles (pages : List (List SlackFile)) : List SlackFile :=
  collectNewFilesAux [] pages

/-- The download tasks created by download_interesting_files, one per
surviving descriptor. -/
def downloadTasks (pages : List (List SlackFile)) : List (String × String) :=
  (collectNewFiles pages).map mkDownloadTask

lemma contains_iff_mem {l : List String} {d : String} : l.contains d = true ↔ d ∈ l := by
  rw [List.contains_iff_exists_mem_beq]
  constructor
  · rintro ⟨a, ha, hb⟩
    rwa [eq_of_beq hb]
  · intro h
    exact ⟨d, h, beq_self_eq_true d⟩

lemma contains_false_iff {l : List String} {d : String} : l.contains d = false ↔ d ∉ l := by
  constructor
  · intro h hm
    rw [contains_iff_mem.mpr hm] at h
    cases h
  · intro h
    cases hc : l.contains d
    · rfl
    · exact absurd (contains_iff_mem.mp hc) h

lemma filter_id_eq_find? (d : String) :
    ∀ (l : List SlackFile), (l.map SlackFile.id).Nodup →
    l.filter (fun f => f.id == d) = (l.find? (fun f => f.id == d)).toList
  | [], _ => rfl
  | f :: l, h => by
    have hnd := (List.nodup_cons.mp h).2
    have hfid := (List.nodup_cons.mp h).1
    by_cases hf : f.id == d
    · have hfd : f.id = d := eq_of_beq hf
      have hnone : l.filter (fun g => g.id == d) = [] := by
        rw [List.filter_eq_nil_iff]
        intro g hg hq
        exact hfid (by rw [hfd, ← eq_of_beq hq]; exact List.mem_map_of_mem SlackFile.id hg)
      simp [List.filter_cons, List.find?_cons, hf, hnone]
    · have hf2 : (fun g => g.id == d) f = false := by simpa using hf
      simp only [List.filter_cons, List.find?_cons, hf2, cond_false]
      exact filter_id_eq_find? d l hnd

lemma collectNewFilesAux_filter (d : String) :
    ∀ (pages : List (List SlackFile)) (seen : List String),
    (∀ p ∈ pages, (p.map SlackFile.id).Nodup) →
    (collectNewFilesAux seen pages).filter (fun f => f.id == d) =
      (if seen.contains d then [] else (pages.flatten.find? (fun f => f.id == d)).toList)
  | [], seen, _ => by
    simp [collectNewFilesAux]
  | page :: rest, seen, h => by
    have hpage := h page (by simp)
    have hrest : ∀ p ∈ rest, (p.map SlackFile.id).Nodup := fun p hp => h p (by simp [hp])
    simp only [collectNewFilesAux, List.filter_append]
    by_cases hd : seen.contains d
    · have hdm : d ∈ seen := contains_iff_mem.mp hd
      have hnew : (page.filter (fun f => !(seen.contains f.id))).filter
          (fun f => f.id == d) = [] := by
        rw [List.filter_eq_nil_iff]
        intro f hf hq
        have h1 := (List.mem_filter.mp hf).2
        rw [eq_of_beq hq] at h1
        rw [hd] at h1
        exact absurd h1 (by simp)
      have hseen2 : (seen ++ (page.filter (fun f => !(seen.contains f.id))).map
          SlackFile.id).contains d := by
        exact contains_iff_mem.mpr (List.mem_append_left _ hdm)
      rw [hnew, collectNewFilesAux_filter d rest _ hrest, if_pos hseen2, if_pos hd]
      rfl
    · have hdm : d ∉ seen := fun hmem => hd (contains_iff_mem.mpr hmem)
      have hcomm : (page.filter (fun f => !(seen.contains f.id))).filter
          (fun f => f.id == d) = page.filter (fun f => f.id == d) := by
        rw [List.filter_filter]
        refine List.filter_congr ?_
        intro f _
        by_cases hq : f.id == d
        · have hns : seen.contains f.id = false := by
            rw [eq_of_beq hq]
            exact Bool.not_eq_true _ ▸ (by simpa using hd)
          simp [hq, hns, contains_false_iff.mp hns]
        · simp [(by simpa using hq : ¬(f.id == d) = true)]
      rw [hcomm, filter_id_eq_find? d page hpage]
      by_cases hfind : (page.find? (fun f => f.id == d)).isSome
      · rcases Option.isSome_iff_exists.mp hfind with ⟨f0, hf0⟩
        have hf0q : (f0.id == d) = true := by
          have h2 := List.find?_some hf0
          simpa using h2
        have hf0d : f0.id = d := eq_of_beq hf0q
        have hf0mem : f0 ∈ page := List.mem_of_find?_eq_some hf0
        have hns : seen.contains f0.id = false := by
          rw [hf0d]
          simpa using hd
        have hf0new : f0 ∈ page.filter (fun f => !(seen.contains f.id)) :=
          List.mem_filter.mpr ⟨hf0mem, by simp [hns, contains_false_iff.mp hns]⟩
        have hseen2 : (seen ++ (page.filter (fun f => !(seen.contains f.id))).map
            SlackFile.id).contains d := by
          refine contains_iff_mem.mpr (List.mem_append_right _ ?_)
          rw [← hf0d]
          exact List.mem_map_of_mem SlackFile.id hf0new
        rw [collectNewFilesAux_filter d rest _ hrest, if_pos hseen2, if_neg hd]
        rw [List.flatten_cons, List.find?_append, hf0]
        simp
      · have hf0 : page.find? (fun f => f.id == d) = none :=
          Option.not_isSome_iff_eq_none.mp hfind
        have hnotin : ∀ f ∈ page, ¬(f.id == d) := by
          rw [← List.find?_eq_none]
          exact hf0
        have hseen2 : ¬(seen ++ (page.filter (fun f => !(seen.contains f.id))).map
            SlackFile.id).contains d = true := by
          intro hc
          rcases List.mem_append.mp (contains_iff_mem.mp hc) with h1 | h1
          · exact hdm h1
          · rcases List.mem_map.mp h1 with ⟨f, hf, hfd⟩
            exact hnotin f (List.mem_of_mem_filter hf) (by simp [hfd])
        rw [collectNewFilesAux_filter d rest _ hrest, if_neg hseen2, if_neg hd]
        rw [List.flatten_cons, List.find?_append, hf0]
        simp

/-! Theorems for claim C4. -/

/-- C4 (counterexample): the claim promises exactly one download task per
unique file id, but when one page contains the same id twice, both
occurrences pass the seen-id filter (the seen set is only updated after the
page filter is computed), so two tasks are issued for one id. -/
theorem download_dedup_cex :
    ¬ ((downloadTasks [[⟨"F1", "a.txt", "u1"⟩, ⟨"F1", "b.txt", "u2"⟩]]).length = 1) := by
  decide

/-- C4 (amended): provided the ids within each single page are distinct,
the download subsystem creates exactly one task per unique id, keeping the
first occurrence across pages (so the task's name comes from the first page
on which the id appeared); ids already seen on an earlier page are dropped.
Without the per-page distinctness proviso, within-page duplicates each
produce a task. -/
theorem download_dedup_firstOccurrence (pages : List (List SlackFile))
    (h : ∀ p ∈ pages, (p.map SlackFile.id).Nodup) (d : String) :
    (collectNewFiles pages).filter (fun f => f.id == d) =
      (pages.flatten.find? (fun f => f.id == d)).toList ∧
    downloadTasks pages = (collectNewFiles pages).map mkDownloadTask := by
  refine ⟨?_, rfl⟩
  have := collectNewFilesAux_filter d pages [] h
  simpa [collectNewFiles] using this

/-- C4 (witness): two pages mentioning id F1 (with different names) and one
id F2 yield exactly the first F1 descriptor and the F2 descriptor. -/
theorem download_dedup_firstOccurrence_witness :
    (collectNewFiles [[⟨"F1", "a.txt", "u1"⟩], [⟨"F1", "c.txt", "u3"⟩, ⟨"F2", "b.txt", "u2"⟩]]).filter
      (fun f => f.id == "F1") = [⟨"F1", "a.txt", "u1"⟩] := by
  have h := download_dedup_firstOccurrence
    [[⟨"F1", "a.txt", "u1"⟩], [⟨"F1", "c.txt", "u3"⟩, ⟨"F2", "b.txt", "u2"⟩]]
    (by decide) "F1"
  rw [h.1]
  rfl

/-! Model of the batched download dispatch (claim C5):
download_interesting_files slices its task list into consecutive batches of
DOWNLOAD_BATCH_SIZE (SlackPirate.py lines 846-849) and _retrieve_file_batch
(lines 755-767) starts every worker of a batch and blocks until none of them
is alive before returning. -/

/-- Batch size constant (SlackPirate.py line 25). -/
def DOWNLOAD_BATCH_SIZE : Nat := 25

/-- Consecutive slices of size n, modelling
`(file_requests[i:i+n] for i in range(0, len(file_requests), n))`. -/
def chunked (n : Nat) : List α → List (List α)
  | [] => []
  | a :: l => (a :: l.take (n - 1)) :: chunked n (l.drop (n - 1))
termination_by l => l.length
decreasing_by simp; omega

/-- Events of the download manager's execution: starting one worker, or the
join barrier at the end of a batch (the `while any(request.is_alive())`
loop of _retrieve_file_batch). -/
inductive DlEvent (α : Type) where
  | start (t : α)
  | joinBatch

/-- The event trace of the batched dispatch: for each batch in order, start
each of its workers, then join the whole batch before the next one. -/
def batchSchedule (batches : List (List α)) : List (DlEvent α) :=
  (batches.map (fun b => b.map DlEvent.start ++ [DlEvent.joinBatch])).flatten

/-- Tasks started over a trace, in order and with multiplicity. -/
def startedTasks : List (DlEvent α) → List α
  | [] => []
  | DlEvent.start t :: rest => t :: startedTasks rest
  | DlEvent.joinBatch :: rest => startedTasks rest

/-- Running maximum of concurrently in-flight workers along a trace: a start
adds one in-flight worker, a batch join waits for all of them. -/
def maxInFlightAux : List (DlEvent α) → Nat → Nat → Nat
  | [], _, m => m
  | DlEvent.start _ :: rest, cur, m => maxInFlightAux rest (cur + 1) (max m (cur + 1))
  | DlEvent.joinBatch :: rest, _, m => maxInFlightAux rest 0 m

/-- Peak number of in-flight workers over a whole trace. -/
def maxInFlight (tr : List (DlEvent α)) : Nat := maxInFlightAux tr 0 0

lemma chunked_flatten (n : Nat) : ∀ (l : List α), (chunked n l).flatten = l
  | [] => by simp [chunked]
  | a :: l => by
    unfold chunked
    rw [List.flatten_cons, chunked_flatten n (l.drop (n - 1))]
    simp [List.take_append_drop]
termination_by l => l.length
decreasing_by simp; omega

lemma chunked_length_le (n : Nat) (hn : 1 ≤ n) :
    ∀ (l : List α), ∀ b ∈ chunked n l, b.length ≤ n
  | [] => by simp [chunked]
  | a :: l => by
    intro b hb
    unfold chunked at hb
    rcases List.mem_cons.mp hb with h1 | h1
    · subst h1
      simp only [List.length_cons]
      have := List.length_take_le (n - 1) l
      omega
    · exact chunked_length_le n hn (l.drop (n - 1)) b h1
termination_by l => l.length
decreasing_by simp; omega

lemma startedTasks_starts_append (b : List α) :
    ∀ (rest : List (DlEvent α)),
    startedTasks (b.map DlEvent.start ++ rest) = b ++ startedTasks rest := by
  induction b with
  | nil => intro rest; rfl
  | cons t b ih =>
    intro rest
    simp only [List.map_cons, List.cons_append, startedTasks, List.append_eq, ih,
      List.cons_append]

lemma startedTasks_batchSchedule : ∀ (batches : List (List α)),
    startedTasks (batchSchedule batches) = batches.flatten
  | [] => rfl
  | b :: batches => by
    unfold batchSchedule
    rw [List.map_cons, List.flatten_cons, List.append_assoc, startedTasks_starts_append]
    simp only [List.singleton_append, startedTasks, List.append_eq, List.nil_append]
    rw [show (List.map (fun b => List.map DlEvent.start b ++ [DlEvent.joinBatch (α := α)]) batches).flatten
        = batchSchedule batches from rfl]
    rw [startedTasks_batchSchedule batches, List.flatten_cons]

lemma maxInFlightAux_starts (b : List α) :
    ∀ (rest : List (DlEvent α)) (cur m : Nat), cur ≤ m →
    maxInFlightAux (b.map DlEvent.start ++ rest) cur m =
      maxInFlightAux rest (cur + b.length) (max m (cur + b.length)) := by
  induction b with
  | nil =>
    intro rest cur m hcm
    simp [Nat.max_eq_left hcm]
  | cons t b ih =>
    intro rest cur m hcm
    simp only [List.map_cons, List.cons_append, maxInFlightAux, List.append_eq]
    rw [ih rest (cur + 1) (max m (cur + 1)) (Nat.le_max_right _ _)]
    have h1 : cur + 1 + b.length = cur + (b.length + 1) := by omega
    have h2 : max (max m (cur + 1)) (cur + 1 + b.length) = max m (cur + (b.length + 1)) := by
      rw [Nat.max_assoc, Nat.max_eq_right (by omega : cur + 1 ≤ cur + 1 + b.length)]
      omega
    rw [h2, h1]
    simp

lemma maxInFlightAux_batchSchedule_le (n : Nat) :
    ∀ (batches : List (List α)) (m : Nat), (∀ b ∈ batches, b.length ≤ n) → m ≤ n →
    maxInFlightAux (batchSchedule batches) 0 m ≤ n
  | [], m, _, hm => hm
  | b :: batches, m, hb, hm => by
    unfold batchSchedule
    rw [List.map_cons, List.flatten_cons, List.append_assoc]
    rw [maxInFlightAux_starts b _ 0 m (Nat.zero_le m)]
    simp only [List.singleton_append, maxInFlightAux, Nat.zero_add]
    exact maxInFlightAux_batchSchedule_le n batches (max m b.length)
      (fun b2 hb2 => hb b2 (by simp [hb2]))
      (Nat.max_le.mpr ⟨hm, hb b (by simp)⟩)

/-! Theorem for claim C5. -/

/-- C5: the download manager partitions the task list into consecutive
batches of at most DOWNLOAD_BATCH_SIZE tasks, the concatenation of the
batches is exactly the task list, in the induced schedule every task is
started exactly once (all batch workers are started, and the next batch is
dispatched only after the current one is fully joined), and the peak number
of in-flight workers never exceeds DOWNLOAD_BATCH_SIZE. -/
theorem download_batching_bounded (l : List (String × String)) :
    (chunked DOWNLOAD_BATCH_SIZE l).flatten = l ∧
    (∀ b ∈ chunked DOWNLOAD_BATCH_SIZE l, b.length ≤ DOWNLOAD_BATCH_SIZE) ∧
    startedTasks (batchSchedule (chunked DOWNLOAD_BATCH_SIZE l)) = l ∧
    maxInFlight (batchSchedule (chunked DOWNLOAD_BATCH_SIZE l)) ≤ DOWNLOAD_BATCH_SIZE := by
  refine ⟨chunked_flatten _ l, chunked_length_le _ (by decide) l, ?_, ?_⟩
  · rw [startedTasks_batchSchedule, chunked_flatten]
  · exact maxInFlightAux_batchSchedule_le _ _ 0
      (chunked_length_le _ (by decide) l) (Nat.zero_le _)

/-- C5 (witness): the bound and the exactly-once dispatch evaluated on a
concrete task list. -/
theorem download_batching_bounded_witness :
    startedTasks (batchSchedule (chunked DOWNLOAD_BATCH_SIZE
      [("u1", "f1"), ("u2", "f2"), ("u3", "f3")])) =
      [("u1", "f1"), ("u2", "f2"), ("u3", "f3")] ∧
    maxInFlight (batchSchedule (chunked DOWNLOAD_BATCH_SIZE
      [("u1", "f1"), ("u2", "f2"), ("u3", "f3")])) ≤ DOWNLOAD_BATCH_SIZE :=
  ⟨(download_batching_bounded [("u1", "f1"), ("u2", "f2"), ("u3", "f3")]).2.2.1,
   (download_batching_bounded [("u1", "f1"), ("u2", "f2"), ("u3", "f3")]).2.2.2⟩

/-! Model of the scan functions' control flow under transport errors
(claims C6 and C7). A provider is deterministic per request and either
raises a transport exception (requests.exceptions.RequestException,
modelled as `Except.error ()`) or returns a decoded response. The single
`try` of each scan function wraps both the discovery loop over all queries
and the drain loop over all pages; its `except` handler only prints, and
the function then proceeds (for four of the five categories) to
`file_cleanup`. -/

/-- The query lists of the search-based scan categories
(SlackPirate.py lines 40-77). -/
def S3_QUERIES : List String := ["s3.amazonaws.com", "s3://", "https://s3", "http://s3"]

/-- Credential search keywords (SlackPirate.py line 41). -/
def CREDENTIALS_QUERIES : List String := ["password:", "password is", "pwd", "passwd"]

/-- AWS key search keywords (SlackPirate.py line 42). -/
def AWS_KEYS_QUERIES : List String := ["ASIA*", "AKIA*"]

/-- Private key search keywords (SlackPirate.py lines 43-47). -/
def PRIVATE_KEYS_QUERIES : List String :=
  ["BEGIN DSA PRIVATE", "BEGIN EC PRIVATE", "BEGIN OPENSSH PRIVATE",
   "BEGIN PGP PRIVATE", "BEGIN RSA PRIVATE"]

/-- Link search keywords (SlackPirate.py lines 63-77). -/
def LINKS_QUERIES : List String :=
  ["amazonaws", "atlassian", "beta", "confluence", "docs.google.com", "github",
   "internal", "jenkins", "jira", "kubernetes", "sharepoint", "staging",
   "swagger", "travis", "trello"]

/-- Output file names (SlackPirate.py lines 32-37). -/
def FILE_S3 : String := "S3.txt"

/-- Credentials store file name. -/
def FILE_CREDENTIALS : String := "passwords.txt"

/-- AWS keys store file name. -/
def FILE_AWS_KEYS : String := "aws-keys.txt"

/-- Private keys store file name. -/
def FILE_PRIVATE_KEYS : String := "private-keys.txt"

/-- Links store file name. -/
def FILE_LINKS : String := "URLs.txt"

/-- Denotation of one discovery `while True` fetch loop against a
deterministic provider: a transport error propagates to the category's
handler; a rate-limited response would be re-fetched unchanged forever,
denoted `none`; otherwise the loop breaks with the response. -/
def discoverQuery (provider : String → Option Nat → Except Unit SlackResponse) (q : String) :
    Option (Except Unit SlackResponse) :=
  match provider q none with
  | Except.error e => some (Except.error e)
  | Except.ok r => if (sleep_if_rate_limited r).1 then none else some (Except.ok r)

/-- Discovery phase over a query list (the first for-loop of
find_credentials, SlackPirate.py lines 425-433, shared shape of all five
search scans): fetches happen in order, and the surrounding try aborts the
whole phase at the first transport error. Returns the performed fetches
(query, page) plus either the error or the page count recorded per
query. -/
def discoverAll (provider : String → Option Nat → Except Unit SlackResponse) :
    List String → Option (List (String × Option Nat) × Except Unit (List (String × Nat)))
  | [] => some ([], Except.ok [])
  | q :: rest =>
    match discoverQuery provider q with
    | none => none
    | some (Except.error e) => some ([(q, none)], Except.error e)
    | some (Except.ok r) =>
      match discoverAll provider rest with
      | none => none
      | some (fs, Except.error e) => some ((q, none) :: fs, Except.error e)
      | some (fs, Except.ok counts) =>
        some ((q, none) :: fs, Except.ok ((q, r.pageCount) :: counts))

/-- Drain of one query's pages (SlackPirate.py lines 441-460): sequential
fetches of the remaining pages starting at `page`; a transport error
propagates out of both loops, abandoning the remaining pages and queries.
Returns performed fetches and whether an error occurred. -/
def drainQueryFrom (provider : String → Option Nat → Except Unit SlackResponse) (q : String) :
    Nat → Nat → List (String × Option Nat) × Bool
  | 0, _ => ([], false)
  | remaining + 1, page =>
    match provider q (some page) with
    | Except.error _ => ([(q, some page)], true)
    | Except.ok _ =>
      let d := drainQueryFrom provider q remaining (page + 1)
      ((q, some page) :: d.1, d.2)

/-- Drain of one query: pages 1 through its recorded page count. -/
def drainQuery (provider : String → Option Nat → Except Unit SlackResponse)
    (q : String) (pageCount : Nat) : List (String × Option Nat) × Bool :=
  drainQueryFrom provider q pageCount 1

/-- Drain phase over all queries with their recorded page counts; an error
in one query's drain abandons the remaining queries too, because the
exception handler is outside both loops. -/
def drainAll (provider : String → Option Nat → Except Unit SlackResponse) :
    List (String × Nat) → List (String × Option Nat) × Bool
  | [] => ([], false)
  | (q, n) :: rest =>
    let d := drainQuery provider q n
    if d.2 then (d.1, true)
    else
      let d2 := drainAll provider rest
      (d.1 ++ d2.1, d2.2)

/-- Observable actions of one scan function run. -/
inductive ScanAction where
  | fetch (q : String) (page : Option Nat)
  | cleanup (file : String)
deriving DecidableEq

/-- Number of cleanup actions in a run. -/
def cleanupCount (acts : List ScanAction) : Nat :=
  acts.countP (fun a => match a with
    | ScanAction.cleanup _ => true
    | _ => false)

/-- Common shape of the five search scan functions: discovery phase and
drain phase inside one try whose handler only logs, then the function's
`file_cleanup` calls run unconditionally. `cleanupFiles` is `[file]` for
find_s3, find_credentials, find_aws_keys and find_interesting_links, which
call `file_cleanup(input_file=file, ...)` after the try, and `[]` for
find_private_keys, which has no such call (SlackPirate.py lines 521-578). -/
def scanMessagesRun (provider : String → Option Nat → Except Unit SlackResponse)
    (queries : List String) (cleanupFiles : List String) : Option (List ScanAction) :=
  match discoverAll provider queries with
  | none => none
  | some (dfs, Except.error _) =>
    some (dfs.map (fun f => ScanAction.fetch f.1 f.2) ++ cleanupFiles.map ScanAction.cleanup)
  | some (dfs, Except.ok counts) =>
    let d := drainAll provider counts
    some ((dfs ++ d.1).map (fun f => ScanAction.fetch f.1 f.2) ++
      cleanupFiles.map ScanAction.cleanup)

/-- Run of find_s3 (SlackPirate.py lines 360-416): cleanup on S3.txt. -/
def find_s3_run (provider : String → Option Nat → Except Unit SlackResponse) :
    Option (List ScanAction) :=
  scanMessagesRun provider S3_QUERIES [FILE_S3]

/-- Run of find_credentials (SlackPirate.py lines 419-470): cleanup on
passwords.txt. -/
def find_credentials_run (provider : String → Option Nat → Except Unit SlackResponse) :
    Option (List ScanAction) :=
  scanMessagesRun provider CREDENTIALS_QUERIES [FILE_CREDENTIALS]

/-- Run of find_aws_keys (SlackPirate.py lines 473-518): cleanup on
aws-keys.txt. -/
def find_aws_keys_run (provider : String → Option Nat → Except Unit SlackResponse) :
    Option (List ScanAction) :=
  scanMessagesRun provider AWS_KEYS_QUERIES [FILE_AWS_KEYS]

/-- Run of find_private_keys (SlackPirate.py lines 521-578): no
file_cleanup call appears anywhere in that function. -/
def find_private_keys_run (provider : String → Option Nat → Except Unit SlackResponse) :
    Option (List ScanAction) :=
  scanMessagesRun provider PRIVATE_KEYS_QUERIES []

/-- Run of find_interesting_links (SlackPirate.py lines 697-752): cleanup
on URLs.txt. -/
def find_interesting_links_run (provider : String → Option Nat → Except Unit SlackResponse) :
    Option (List ScanAction) :=
  scanMessagesRun provider LINKS_QUERIES [FILE_LINKS]

/-- A fetch of this request succeeds at the transport level. -/
def fetchOk (provider : String → Option Nat → Except Unit SlackResponse)
    (f : String × Option Nat) : Prop :=
  ∃ r, provider f.1 f.2 = Except.ok r

/-- The provider never reports the rate-limit signal on discovery requests
(so every discovery while-loop terminates after one fetch). -/
def NoRateLimit (provider : String → Option Nat → Except Unit SlackResponse) : Prop :=
  ∀ q r, provider q none = Except.ok r → (sleep_if_rate_limited r).1 = false

lemma mem_dropLast_cons {x : α} {l : List α} {f : α} (hf : f ∈ (x :: l).dropLast) :
    f = x ∨ f ∈ l.dropLast := by
  cases l with
  | nil => simp [List.dropLast] at hf
  | cons y l2 =>
    rw [show x :: y :: l2 = [x] ++ y :: l2 from rfl,
      List.dropLast_append_of_ne_nil _ (by simp)] at hf
    rcases List.mem_append.mp hf with h1 | h1
    · exact Or.inl (by simpa using h1)
    · exact Or.inr h1

lemma discoverAll_spec (provider : String → Option Nat → Except Unit SlackResponse)
    (hnr : NoRateLimit provider) :
    ∀ (queries : List String), ∃ dfs res, discoverAll provider queries = some (dfs, res) ∧
      (∀ f ∈ dfs.dropLast, fetchOk provider f) ∧
      (∀ counts, res = Except.ok counts → ∀ f ∈ dfs, fetchOk provider f)
  | [] => ⟨[], Except.ok [], rfl, by simp, by simp⟩
  | q :: rest => by
    rcases hprov : provider q none with e | r
    · refine ⟨[(q, none)], Except.error e, ?_, by simp, ?_⟩
      · simp [discoverAll, discoverQuery, hprov]
      · intro counts hc
        cases hc
    · have hnl : (sleep_if_rate_limited r).1 = false := hnr q r hprov
      rcases discoverAll_spec provider hnr rest with ⟨dfs, res, hd, h1, h2⟩
      rcases res with e | counts
      · refine ⟨(q, none) :: dfs, Except.error e, ?_, ?_, ?_⟩
        · simp [discoverAll, discoverQuery, hprov, hnl, hd]
        · intro f hf
          rcases mem_dropLast_cons hf with h3 | h3
          · subst h3
            exact ⟨r, hprov⟩
          · exact h1 f h3
        · intro counts hc
          cases hc
      · refine ⟨(q, none) :: dfs, Except.ok ((q, r.pageCount) :: counts), ?_, ?_, ?_⟩
        · simp [discoverAll, discoverQuery, hprov, hnl, hd]
        · intro f hf
          rcases mem_dropLast_cons hf with h3 | h3
          · subst h3
            exact ⟨r, hprov⟩
          · exact h1 f h3
        · intro counts2 hc
          intro f hf
          rcases List.mem_cons.mp hf with h3 | h3
          · subst h3
            exact ⟨r, hprov⟩
          · exact h2 counts rfl f h3

lemma drainQueryFrom_spec (provider : String → Option Nat → Except Unit SlackResponse)
    (q : String) : ∀ (remaining page : Nat),
    (∀ f ∈ (drainQueryFrom provider q remaining page).1.dropLast, fetchOk provider f) ∧
    ((drainQueryFrom provider q remaining page).2 = false →
      ∀ f ∈ (drainQueryFrom provider q remaining page).1, fetchOk provider f)
  | 0, page => by simp [drainQueryFrom]
  | remaining + 1, page => by
    rcases hprov : provider q (some page) with e | r
    · constructor
      · intro f hf
        simp [drainQueryFrom, hprov, List.dropLast] at hf
      · intro hfalse
        simp [drainQueryFrom, hprov] at hfalse
    · have ih := drainQueryFrom_spec provider q remaining (page + 1)
      constructor
      · intro f hf
        simp only [drainQueryFrom, hprov] at hf
        rcases mem_dropLast_cons hf with h3 | h3
        · subst h3
          exact ⟨r, hprov⟩
        · exact ih.1 f h3
      · intro hfalse f hf
        simp only [drainQueryFrom, hprov] at hfalse hf
        rcases List.mem_cons.mp hf with h3 | h3
        · subst h3
          exact ⟨r, hprov⟩
        · exact ih.2 hfalse f h3

lemma drainQuery_spec (provider : String → Option Nat → Except Unit SlackResponse)
    (q : String) (n : Nat) :
    (∀ f ∈ (drainQuery provider q n).1.dropLast, fetchOk provider f) ∧
    ((drainQuery provider q n).2 = false →
      ∀ f ∈ (drainQuery provider q n).1, fetchOk provider f) :=
  drainQueryFrom_spec provider q n 1

lemma drainAll_spec (provider : String → Option Nat → Except Unit SlackResponse) :
    ∀ (counts : List (String × Nat)),
    (∀ f ∈ (drainAll provider counts).1.dropLast, fetchOk provider f) ∧
    ((drainAll provider counts).2 = false →
      ∀ f ∈ (drainAll provider counts).1, fetchOk provider f)
  | [] => by simp [drainAll]
  | (q, n) :: rest => by
    have hq := drainQuery_spec provider q n
    have ih := drainAll_spec provider rest
    cases hd2 : (drainQuery provider q n).2 with
    | true =>
      have heq : drainAll provider ((q, n) :: rest) = ((drainQuery provider q n).1, true) := by
        simp [drainAll, hd2]
      constructor
      · intro f hf
        rw [heq] at hf
        exact hq.1 f hf
      · intro hfalse
        rw [heq] at hfalse
        cases hfalse
    | false =>
      have hall := hq.2 hd2
      have heq : drainAll provider ((q, n) :: rest) =
          ((drainQuery provider q n).1 ++ (drainAll provider rest).1,
            (drainAll provider rest).2) := by
        simp [drainAll, hd2]
      constructor
      · intro f hf
        rw [heq] at hf
        by_cases hnil : (drainAll provider rest).1 = []
        · rw [hnil, List.append_nil] at hf
          exact hall f ((List.dropLast_sublist _).subset hf)
        · rw [List.dropLast_append_of_ne_nil _ hnil] at hf
          rcases List.mem_append.mp hf with h3 | h3
          · exact hall f h3
          · exact ih.1 f h3
      · intro hfalse f hf
        rw [heq] at hfalse hf
        rcases List.mem_append.mp hf with h3 | h3
        · exact hall f h3
        · exact ih.2 hfalse f h3

lemma scanMessagesRun_shape (provider : String → Option Nat → Except Unit SlackResponse)
    (queries cleanupFiles : List String) (hnr : NoRateLimit provider) :
    ∃ fetches : List (String × Option Nat), scanMessagesRun provider queries cleanupFiles =
      some (fetches.map (fun f => ScanAction.fetch f.1 f.2) ++
        cleanupFiles.map ScanAction.cleanup) ∧
      ∀ f ∈ fetches.dropLast, fetchOk provider f := by
  rcases discoverAll_spec provider hnr queries with ⟨dfs, res, hd, h1, h2⟩
  rcases res with e | counts
  · exact ⟨dfs, by simp [scanMessagesRun, hd], h1⟩
  · have hall := h2 counts rfl
    have hdrain := drainAll_spec provider counts
    refine ⟨dfs ++ (drainAll provider counts).1, by simp [scanMessagesRun, hd], ?_⟩
    intro f hf
    by_cases hnil : (drainAll provider counts).1 = []
    · rw [hnil, List.append_nil] at hf
      exact hall f ((List.dropLast_sublist _).subset hf)
    · rw [List.dropLast_append_of_ne_nil _ hnil] at hf
      rcases List.mem_append.mp hf with h3 | h3
      · exact hall f h3
      · exact hdrain.1 f h3

lemma cleanupCount_shape (fetches : List (String × Option Nat)) (files : List String) :
    cleanupCount (fetches.map (fun f => ScanAction.fetch f.1 f.2) ++
      files.map ScanAction.cleanup) = files.length := by
  unfold cleanupCount
  rw [List.countP_append]
  have h1 : (fetches.map (fun f => ScanAction.fetch f.1 f.2)).countP (fun a => match a with
      | ScanAction.cleanup _ => true
      | _ => false) = 0 := by
    rw [List.countP_eq_zero]
    intro a ha
    rcases List.mem_map.mp ha with ⟨f, _, rfl⟩
    simp
  have h2 : (files.map ScanAction.cleanup).countP (fun a => match a with
      | ScanAction.cleanup _ => true
      | _ => false) = files.length := by
    rw [show files.length = (files.map ScanAction.cleanup).length from by simp]
    rw [List.countP_eq_length]
    intro a ha
    rcases List.mem_map.mp ha with ⟨f, _, rfl⟩
    simp
  rw [h1, h2]
  omega

/-! Theorems for claim C6. -/

/-- C6 (counterexample): a transport error on the very first credentials
discovery fetch abandons not just that one operation but the whole
remaining query set of the category — no fetch for the second query
`"password is"` is ever issued, because the exception handler sits outside
both loops. Only the final cleanup still runs. -/
theorem transport_error_continues_cex :
    find_credentials_run (fun _ _ => Except.error ()) =
      some [ScanAction.fetch "password:" none, ScanAction.cleanup FILE_CREDENTIALS] ∧
    ScanAction.fetch "password is" none ∉
      (find_credentials_run (fun _ _ => Except.error ())).getD [] := by
  constructor
  · rfl
  · decide

/-- C6 (amended): a transport failure during any fetch of a search category
abandons all remaining fetches of that category (every performed fetch
except possibly the last one succeeded, so nothing is fetched after the
first error), while the category still finishes normally: its cleanup
actions run and the session proceeds. -/
theorem transport_failure_aborts_category (provider : String → Option Nat → Except Unit SlackResponse)
    (queries cleanupFiles : List String) (hnr : NoRateLimit provider) :
    ∃ fetches : List (String × Option Nat), scanMessagesRun provider queries cleanupFiles =
      some (fetches.map (fun f => ScanAction.fetch f.1 f.2) ++
        cleanupFiles.map ScanAction.cleanup) ∧
      ∀ f ∈ fetches.dropLast, fetchOk provider f :=
  scanMessagesRun_shape provider queries cleanupFiles hnr

/-- C6 (witness): the amended statement at an always-failing provider on the
credentials category. -/
theorem transport_failure_aborts_category_witness :
    ∃ fetches : List (String × Option Nat),
      scanMessagesRun (fun _ _ => Except.error ()) CREDENTIALS_QUERIES
      [FILE_CREDENTIALS] =
      some (fetches.map (fun f => ScanAction.fetch f.1 f.2) ++
        [FILE_CREDENTIALS].map ScanAction.cleanup) ∧
      ∀ f ∈ fetches.dropLast, fetchOk (fun _ _ => Except.error ()) f :=
  transport_failure_aborts_category (fun _ _ => Except.error ()) CREDENTIALS_QUERIES
    [FILE_CREDENTIALS] (fun q r h => by cases h)

/-! Theorems for claim C7. -/

/-- C7 (counterexample): the private-keys category is a search-based finding
category, but find_private_keys contains no file_cleanup call at all: its
run performs zero cleanup actions where the claim requires exactly one. -/
theorem private_keys_no_cleanup_cex :
    (find_private_keys_run (fun _ _ => Except.ok ⟨true, "", 0⟩)).map cleanupCount = some 0 ∧
    ¬ ((find_private_keys_run (fun _ _ => Except.ok ⟨true, "", 0⟩)).map cleanupCount = some 1) := by
  constructor
  · rfl
  · decide

/-- C7 (amended): the s3, credentials, aws-keys and links categories each
run file_cleanup exactly once on their own store, as the final action after
the query set has been drained; the private-keys category never runs
cleanup. -/
theorem cleanup_once_after_drain (provider : String → Option Nat → Except Unit SlackResponse)
    (hnr : NoRateLimit provider) :
    (∃ acts, find_s3_run provider = some acts ∧ cleanupCount acts = 1 ∧
      acts.getLast? = some (ScanAction.cleanup FILE_S3)) ∧
    (∃ acts, find_credentials_run provider = some acts ∧ cleanupCount acts = 1 ∧
      acts.getLast? = some (ScanAction.cleanup FILE_CREDENTIALS)) ∧
    (∃ acts, find_aws_keys_run provider = some acts ∧ cleanupCount acts = 1 ∧
      acts.getLast? = some (ScanAction.cleanup FILE_AWS_KEYS)) ∧
    (∃ acts, find_interesting_links_run provider = some acts ∧ cleanupCount acts = 1 ∧
      acts.getLast? = some (ScanAction.cleanup FILE_LINKS)) ∧
    (∃ acts, find_private_keys_run provider = some acts ∧ cleanupCount acts = 0) := by
  have hgen : ∀ (queries : List String) (file : String),
      ∃ acts, scanMessagesRun provider queries [file] = some acts ∧
        cleanupCount acts = 1 ∧ acts.getLast? = some (ScanAction.cleanup file) := by
    intro queries file
    rcases scanMessagesRun_shape provider queries [file] hnr with ⟨fetches, hrun, _⟩
    refine ⟨_, hrun, ?_, ?_⟩
    · rw [cleanupCount_shape]
      rfl
    · rw [show ([file].map ScanAction.cleanup) = [ScanAction.cleanup file] from rfl]
      exact List.getLast?_concat _
  refine ⟨hgen S3_QUERIES FILE_S3, hgen CREDENTIALS_QUERIES FILE_CREDENTIALS,
    hgen AWS_KEYS_QUERIES FILE_AWS_KEYS, hgen LINKS_QUERIES FILE_LINKS, ?_⟩
  rcases scanMessagesRun_shape provider PRIVATE_KEYS_QUERIES [] hnr with ⟨fetches, hrun, _⟩
  refine ⟨_, hrun, ?_⟩
  rw [cleanupCount_shape]
  rfl

/-- C7 (witness): the cleanup placement at a concrete provider reporting
zero result pages everywhere. -/
theorem cleanup_once_after_drain_witness :
    ∃ acts, find_s3_run (fun _ _ => Except.ok ⟨true, "", 0⟩) = some acts ∧
      cleanupCount acts = 1 ∧ acts.getLast? = some (ScanAction.cleanup FILE_S3) :=
  (cleanup_once_after_drain (fun _ _ => Except.ok ⟨true, "", 0⟩)
    (fun q r h => by cases h; decide)).1

/-! Model of the private-key match post-processing (claim C9):
find_private_keys (SlackPirate.py lines 560-567) computes
`remove_new_line_char = [w.replace('\\n', '\n') for w in regex_results]`
and then, in non-verbose mode, writes `item + "\n\n"` for each `item` in
`set(remove_new_line_char)`. -/

/-- Python `str.replace('\\n', '\n')`: scan left to right and replace every
non-overlapping occurrence of the two-character sequence backslash-n with a
newline character. -/
def replEsc : List Char → List Char
  | [] => []
  | [c] => [c]
  | c1 :: c2 :: rest =>
    if c1 = '\\' ∧ c2 = 'n' then '\n' :: replEsc rest
    else c1 :: replEsc (c2 :: rest)

/-- The replacement applied to one regex match. -/
def removeNewLineChar (w : String) : String := ⟨replEsc w.data⟩

/-- The distinct post-replacement matches of one page
(`set(remove_new_line_char)`). -/
def privateKeysPageItems (regex_results : List String) : List String :=
  (regex_results.map removeNewLineChar).dedup

/-- The text appended to the private-keys store for one page: every distinct
post-replacement item followed by a double newline. -/
def privateKeysPageText (regex_results : List String) : String :=
  ⟨((privateKeysPageItems regex_results).map (fun i => i.data ++ ['\n', '\n'])).flatten⟩

/-- Detector for a remaining literal two-character escaped newline. -/
def hasEscNL : List Char → Bool
  | c1 :: c2 :: rest => (c1 = '\\' && c2 = 'n') || hasEscNL (c2 :: rest)
  | _ => false

lemma replEsc_cons_head (c : Char) (l : List Char) :
    ∃ d t, replEsc (c :: l) = d :: t ∧ (d = c ∨ d = '\n') := by
  cases l with
  | nil => exact ⟨c, [], rfl, Or.inl rfl⟩
  | cons c2 rest =>
    by_cases h : c = '\\' ∧ c2 = 'n'
    · refine ⟨'\n', replEsc rest, ?_, Or.inr rfl⟩
      simp [replEsc, h]
    · refine ⟨c, replEsc (c2 :: rest), ?_, Or.inl rfl⟩
      simp [replEsc, h]

lemma replEsc_no_esc : ∀ (l : List Char), hasEscNL (replEsc l) = false
  | [] => rfl
  | [_] => rfl
  | c1 :: c2 :: rest => by
    by_cases h : c1 = '\\' ∧ c2 = 'n'
    · have ih := replEsc_no_esc rest
      rw [show replEsc (c1 :: c2 :: rest) = '\n' :: replEsc rest from by simp [replEsc, h]]
      cases hr : replEsc rest with
      | nil => rfl
      | cons d t =>
        rw [hr] at ih
        have hne : ('\n' = '\\') = False := by simp
        simp [hasEscNL, ih, hne]
    · have ih := replEsc_no_esc (c2 :: rest)
      rw [show replEsc (c1 :: c2 :: rest) = c1 :: replEsc (c2 :: rest) from by simp [replEsc, h]]
      rcases replEsc_cons_head c2 rest with ⟨d, t, hdt, hd⟩
      rw [hdt] at ih ⊢
      have hfirst : (c1 = '\\' && d = 'n') = false := by
        rcases hd with hd | hd
        · subst hd
          rcases Decidable.not_and_iff_or_not.mp h with h1 | h1 <;> simp [h1]
        · subst hd
          simp
      simp [hasEscNL, ih, hfirst]

/-! Theorem for claim C9. -/

/-- C9: every item stored by the private-keys page writer is a regex match
with every literal two-character escaped newline replaced by a real newline
(no backslash-n pair survives the replacement), each distinct
post-replacement match is written exactly once per page, and the page text
is exactly those items each followed by a double newline. -/
theorem private_keys_newline_rendering (regex_results : List String) :
    (∀ item ∈ privateKeysPageItems regex_results, hasEscNL item.data = false) ∧
    (∀ item ∈ privateKeysPageItems regex_results,
      ∃ w ∈ regex_results, item = removeNewLineChar w) ∧
    (∀ w ∈ regex_results,
      (privateKeysPageItems regex_results).count (removeNewLineChar w) = 1) ∧
    privateKeysPageText regex_results =
      ⟨((privateKeysPageItems regex_results).map (fun i => i.data ++ ['\n', '\n'])).flatten⟩ := by
  refine ⟨?_, ?_, ?_, rfl⟩
  · intro item hitem
    rcases List.mem_map.mp (List.mem_dedup.mp hitem) with ⟨w, _, rfl⟩
    exact replEsc_no_esc w.data
  · intro item hitem
    rcases List.mem_map.mp (List.mem_dedup.mp hitem) with ⟨w, hw, rfl⟩
    exact ⟨w, hw, rfl⟩
  · intro w hw
    unfold privateKeysPageItems
    rw [List.count_dedup]
    rw [if_pos (List.mem_map_of_mem removeNewLineChar hw)]

/-- C9 (witness): a page with a duplicated encoded key yields the decoded
key exactly once, free of literal escape sequences. -/
theorem private_keys_newline_rendering_witness :
    hasEscNL (removeNewLineChar "BEGIN\\nKEY\\nEND").data = false ∧
    (privateKeysPageItems ["BEGIN\\nKEY\\nEND", "BEGIN\\nKEY\\nEND"]).count
      (removeNewLineChar "BEGIN\\nKEY\\nEND") = 1 :=
  ⟨(private_keys_newline_rendering ["BEGIN\\nKEY\\nEND", "BEGIN\\nKEY\\nEND"]).1
      (removeNewLineChar "BEGIN\\nKEY\\nEND") (by decide),
   (private_keys_newline_rendering ["BEGIN\\nKEY\\nEND", "BEGIN\\nKEY\\nEND"]).2.2.1
      "BEGIN\\nKEY\\nEND" (by decide)⟩

/-! Witness for claim C2. -/

/-- C2 (witness): a provider reporting three pages yields one discovery
fetch and drain pages 1, 2, 3; a provider reporting zero pages yields one
discovery fetch and no drain fetches. -/
theorem paginated_runner_fetches_witness :
    runQueryS3 (fun _ _ => ⟨true, "", 3⟩) 1 = some (1, [], [1, 2, 3]) ∧
    runQueryS3 (fun _ _ => ⟨true, "", 0⟩) 1 = some (1, [], []) := by
  constructor
  · have h := paginated_runner_fetches (fun _ _ => ⟨true, "", 3⟩) 1 3 (by omega)
      (by decide) rfl
    rw [h.1, h.2.1]
    rfl
  · have h := paginated_runner_fetches (fun _ _ => ⟨true, "", 0⟩) 1 0 (by omega)
      (by decide) rfl
    rw [h.1, h.2.1]
    rfl

end SlackPirate
